import Mathlib

/-!
Shallow embedding of the Allocation & Negotiation Engine of the
Allocation_Fairness repository (allocation strategies, largest-remainder
integerization, Gini statistics, and the negotiation-session pieces the
claims refer to).

Modelling conventions:
* Python `float` values are modelled as exact rationals `ℚ`.
* Python `dict`s are modelled as association lists; `d.get(k, default)`
  becomes a first-match lookup with a default.
* Python's stable `sorted` is modelled by `List.insertionSort`, which is
  also a stable sort, with the comparator derived from the sort key.
* Python's `round` (banker's rounding, half to even) is `pyRound`.
* Division by zero yields `0` in `ℚ`; the Python source would raise
  there.  All theorems stay inside the crash-free domain of the source.
-/

/-- A resource map: `resource_name → amount` (a Python dict). -/
abbrev ResMap := List (String × ℚ)

/-- An allocation / needs map: `agent_id → resource_name → amount`. -/
abbrev Alloc := List (Nat × ResMap)

/-- A household agent record (the fields used by the engine). -/
structure Agent where
  id : Nat
  members : Nat
  labor_force : Nat
  value_type : String
deriving Repr, DecidableEq

/-- `d.get(k, default)` on an association list keyed by agent id. -/
def lookupD (m : Alloc) (k : Nat) : ResMap :=
  match m with
  | [] => []
  | (k', v) :: rest => if k' = k then v else lookupD rest k

/-- `d.get(name, 0.0)` on a resource map. -/
def lookupRes (m : ResMap) (r : String) : ℚ :=
  match m with
  | [] => 0
  | (r', v) :: rest => if r' = r then v else lookupRes rest r

/-- `d[name] = v` on a resource map: replace the first binding in place,
or append a new one (Python dict update semantics). -/
def setRes (m : ResMap) (r : String) (v : ℚ) : ResMap :=
  match m with
  | [] => [(r, v)]
  | (r', w) :: rest => if r' = r then (r, v) :: rest else (r', w) :: setRes rest r v

/-- Sum of all amounts of a resource pool (`sum(pool.values())`). -/
def poolTotal (pool : ResMap) : ℚ := (pool.map (fun p => p.2)).sum

/-- Grand total of an allocation:
`sum(sum(a.values()) for a in allocation.values())`. -/
def allocTotal (a : Alloc) : ℚ :=
  (a.map (fun p => (p.2.map (fun q => q.2)).sum)).sum

/-- Sum of the `"grain"` entries of an allocation's rows. -/
def grainTotal (a : Alloc) : ℚ := (a.map (fun p => lookupRes p.2 "grain")).sum

/-- The `"grain"` value allocated to agent `aid`. -/
def getGrain (a : Alloc) (aid : Nat) : ℚ := lookupRes (lookupD a aid) "grain"

/-- Python 3 `round`: round half to even. -/
def pyRound (q : ℚ) : ℤ :=
  let f := ⌊q⌋
  let r := q - f
  if r < 1/2 then f
  else if 1/2 < r then f + 1
  else if 2 ∣ f then f else f + 1

/-- Point update of an integer-valued map. -/
def updZ (f : Nat → ℤ) (k : Nat) (v : ℤ) : Nat → ℤ :=
  fun x => if x = k then v else f x

/-- The increment loop of the integerizer: walk the ordered agent list,
adding `1` to each visited agent while `need` remains positive
(`while need > 0 and i < len(order)`). -/
def incLoop : List Nat → ℤ → (Nat → ℤ) → (Nat → ℤ)
  | [], _, base => base
  | a :: rest, need, base =>
    if 0 < need then incLoop rest (need - 1) (updZ base a (base a + 1)) else base

/-- The decrement loop of the integerizer: walk the ordered agent list,
subtracting `1` from each visited agent still above its floor while
`excess` remains positive.  Note this is a single pass: each agent is
visited at most once. -/
def decLoop (minNeed : Nat → ℤ) : List Nat → ℤ → (Nat → ℤ) → (Nat → ℤ)
  | [], _, base => base
  | a :: rest, excess, base =>
    if 0 < excess then
      if minNeed a < base a then decLoop minNeed rest (excess - 1) (updZ base a (base a - 1))
      else decLoop minNeed rest excess base
    else base

/-- Python's stable `sorted(l, key=key)` (ascending). -/
def sortAscBy (key : Nat → ℚ) (l : List Nat) : List Nat :=
  List.insertionSort (fun a b => key a ≤ key b) l

/-- Python's stable `sorted(l, key=key, reverse=True)` (descending). -/
def sortDescBy (key : Nat → ℚ) (l : List Nat) : List Nat :=
  List.insertionSort (fun a b => key b ≤ key a) l

/-- The `real` map of the integerizer:
`float(distribution_result.get(aid, {}).get("grain", 0.0))`. -/
def izReal (dist : Alloc) (aid : Nat) : ℚ := lookupRes (lookupD dist aid) "grain"

/-- The `min_need` map of the integerizer: `ceil(survival_need)` of the
grain need when the floor is enforced and a needs dict was supplied,
else `0`. -/
def izMinNeed (needs : Alloc) (enforce_min_survival : Bool) (aid : Nat) : ℤ :=
  if enforce_min_survival ∧ needs ≠ [] then
    let nd := lookupRes (lookupD needs aid) "grain"
    if 0 < nd then ⌈nd⌉ else 0
  else 0

/-- The `base` map of the integerizer after the floor-application loop:
`floor(real)` raised to `min_need` when below it. -/
def izBase0 (dist needs : Alloc) (enforce_min_survival : Bool) (aid : Nat) : ℤ :=
  if ⌊izReal dist aid⌋ < izMinNeed needs enforce_min_survival aid then
    izMinNeed needs enforce_min_survival aid
  else ⌊izReal dist aid⌋

/-- The `fractional` map of the integerizer after the floor-application
loop: the fractional part, zeroed for agents raised to their floor. -/
def izFrac (dist needs : Alloc) (enforce_min_survival : Bool) (aid : Nat) : ℚ :=
  if ⌊izReal dist aid⌋ < izMinNeed needs enforce_min_survival aid then 0
  else izReal dist aid - ⌊izReal dist aid⌋

/-- `target = int(round(current_sum))`; the Python sum ranges over the
values of the `real` dict, i.e. over distinct agent ids. -/
def izTarget (agents : List Agent) (dist : Alloc) : ℤ :=
  pyRound (((agents.map (fun a => a.id)).dedup.map (izReal dist)).sum)

/-- `sum(base.values())` over the distinct agent ids. -/
def izBaseSum (agents : List Agent) (dist needs : Alloc)
    (enforce_min_survival : Bool) : ℤ :=
  ((agents.map (fun a => a.id)).dedup.map (izBase0 dist needs enforce_min_survival)).sum

/-- The `base` map after the increment/decrement pass of the
integerizer. -/
def izBase1 (agents : List Agent) (dist needs : Alloc)
    (enforce_min_survival : Bool) : Nat → ℤ :=
  let agentIds := agents.map (fun a => a.id)
  let minNeed := izMinNeed needs enforce_min_survival
  let base0 := izBase0 dist needs enforce_min_survival
  let frac := izFrac dist needs enforce_min_survival
  let target := izTarget agents dist
  let baseSum := izBaseSum agents dist needs enforce_min_survival
  if baseSum < target then
    incLoop (sortDescBy frac agentIds) (target - baseSum) base0
  else if target < baseSum then
    decLoop minNeed (sortAscBy frac agentIds) (baseSum - target) base0
  else base0

/-- `integerize_distribution` from `distribution_mechanisms.py`
(largest-remainder rounding of the `"grain"` entries, with an optional
survival floor).  Only the `"grain"` entry of each agent's resource map
is rewritten; the assembly dict comprehension ranges over the distinct
agent ids. -/
def integerize_distribution (pool : ResMap) (agents : List Agent)
    (dist : Alloc) (needs : Alloc) (enforce_min_survival : Bool) : Alloc :=
  if agents = [] ∨ dist = [] then dist else
  (agents.map (fun a => a.id)).dedup.map (fun aid =>
    (aid, setRes (lookupD dist aid) "grain"
      ((izBase1 agents dist needs enforce_min_survival aid : ℤ) : ℚ)))

/-- The fractional allocation computed inside `equal_distribution`
before it is handed to the integerizer: `total / n` per agent per
resource. -/
def equal_pre (pool : ResMap) (agents : List Agent) : Alloc :=
  agents.map (fun a =>
    (a.id, pool.map (fun p => (p.1, p.2 / (agents.length : ℚ)))))

/-- `equal_distribution` from `distribution_mechanisms.py`: equal split
of every resource, then integerization without the survival floor. -/
def equal_distribution (pool : ResMap) (agents : List Agent) : Alloc :=
  if agents.length = 0 then [] else
  integerize_distribution pool agents (equal_pre pool agents) [] false

/-- Total survival requirement for a resource, summed over the needs
dict (`survival_resources_total` in `contribution_based_distribution`). -/
def needsTotalFor (needs : Alloc) (r : String) : ℚ :=
  (needs.map (fun q => lookupRes q.2 r)).sum

/-- The fractional allocation computed inside
`contribution_based_distribution` (for positive total labor force):
each agent receives its survival need plus a labor-force share of the
remaining pool. -/
def contribution_pre (pool : ResMap) (agents : List Agent) (needs : Alloc) : Alloc :=
  let totalLabor : ℚ := ((agents.map (fun a => a.labor_force)).sum : ℕ)
  agents.map (fun a =>
    (a.id, pool.map (fun p =>
      let survTotal := needsTotalFor needs p.1
      let distributable := max 0 (p.2 - survTotal)
      let baseSurvival := lookupRes (lookupD needs a.id) p.1
      let laborProportion := if 0 < totalLabor then (a.labor_force : ℚ) / totalLabor else 0
      (p.1, baseSurvival + laborProportion * distributable))))

/-- `contribution_based_distribution` from `distribution_mechanisms.py`:
zero total labor force degrades to `equal_distribution`; otherwise
survival needs first, labor-share of the remainder, then integerization
without the survival floor. -/
def contribution_based_distribution (pool : ResMap) (agents : List Agent)
    (needs : Alloc) : Alloc :=
  if agents = [] then [] else
  if (agents.map (fun a => a.labor_force)).sum = 0 then
    equal_distribution pool agents
  else
    integerize_distribution pool agents (contribution_pre pool agents needs) needs false

/-- Labor density `labor_force / members` of an agent (`0` if no
members, as in the guarded occurrences in the source). -/
def laborDensity (a : Agent) : ℚ :=
  if 0 < a.members then (a.labor_force : ℚ) / (a.members : ℚ) else 0

/-- The "special need" weight of stage 2 of `needs_based_distribution`:
`max(0, 0.5 - labor_density) * 2` for dependency-heavy families. -/
def specialNeedWeight (a : Agent) : ℚ :=
  if laborDensity a < 1/2 then (1/2 - laborDensity a) * 2 else 0

/-- The unguarded special-weight expression used for the stage-2
normalizing denominator (`total_special_need_weight` in the source,
written there as `(ld < 0.5) * (0.5 - ld) * 2`). -/
def specialNeedWeightRaw (a : Agent) : ℚ :=
  if (a.labor_force : ℚ) / (a.members : ℚ) < 1/2 then
    (1/2 - (a.labor_force : ℚ) / (a.members : ℚ)) * 2
  else 0

/-- Stages 1 and 2 of `needs_based_distribution` for one resource of
amount `amt`: 70% of the pool by population share, plus 30% weighted
50% population / 30% labor / 20% special need. -/
def needsBasedStage12 (agents : List Agent) (amt : ℚ) (a : Agent) : ℚ :=
  let totalMembers : ℚ := ((agents.map (fun x => x.members)).sum : ℕ)
  let totalLabor : ℚ := ((agents.map (fun x => x.labor_force)).sum : ℕ)
  let totalSpecial : ℚ := (agents.map specialNeedWeightRaw).sum
  let basic := if 0 < totalMembers then amt * (7/10) * ((a.members : ℚ) / totalMembers) else 0
  let populationShare := if 0 < totalMembers then ((a.members : ℚ) / totalMembers) * (1/2) else 0
  let laborShare := if 0 < totalLabor then ((a.labor_force : ℚ) / totalLabor) * (3/10) else 0
  let specialShare := if 0 < totalSpecial then (specialNeedWeight a / totalSpecial) * (1/5) else 0
  basic + amt * (3/10) * (populationShare + laborShare + specialShare)

/-- Stage 3 of `needs_based_distribution` for one resource: raise every
family below 3.5 units per capita by transferring 30% of the
above-average surplus of richer families, proportionally, capped by the
total shortage. -/
def needsBasedStage3 (agents : List Agent) (amt : ℚ) (f : Agent → ℚ) (a : Agent) : ℚ :=
  let totalMembers : ℚ := ((agents.map (fun x => x.members)).sum : ℕ)
  let perCapita : Agent → ℚ := fun x =>
    if 0 < x.members then f x / (x.members : ℚ) else 0
  let shortage : Agent → ℚ := fun x => (7/2 - perCapita x) * (x.members : ℚ)
  let adjustments := agents.filter (fun x => perCapita x < 7/2)
  if adjustments = [] then f a else
  let totalShortage := (adjustments.map shortage).sum
  let avgPerCapita := amt / totalMembers
  let donors := agents.filter (fun x => avgPerCapita < perCapita x)
  let surplus : Agent → ℚ := fun x => (perCapita x - avgPerCapita) * (x.members : ℚ) * (3/10)
  let totalSurplus := (donors.map surplus).sum
  if 0 < totalSurplus then
    f a
      + (if perCapita a < 7/2 then
          (shortage a / totalShortage) * min totalSurplus totalShortage else 0)
      - (if avgPerCapita < perCapita a then
          (surplus a / totalSurplus) * min totalSurplus totalShortage else 0)
  else f a

/-- The fractional allocation computed by `needs_based_distribution`
before its final call to the integerizer (stages 1-3 for every resource
of the pool).  The survival-needs map only gates the early return; the
allocation itself never reads it. -/
def needs_based_pre (pool : ResMap) (agents : List Agent) (needs : Alloc) : Alloc :=
  if agents = [] ∨ needs = [] then [] else
  agents.map (fun a =>
    (a.id, pool.map (fun p =>
      (p.1, needsBasedStage3 agents p.2 (needsBasedStage12 agents p.2) a))))

/-- `needs_based_distribution` from `distribution_mechanisms.py`:
stages 1-3, then integerization with the survival floor enforced. -/
def needs_based_distribution (pool : ResMap) (agents : List Agent) (needs : Alloc) : Alloc :=
  if agents = [] ∨ needs = [] then [] else
  integerize_distribution pool agents (needs_based_pre pool agents needs) needs true

/-- `calculate_gini_coefficient` from `evaluation_system.py`. -/
def calculate_gini_coefficient (distribution : List ℚ) : ℚ :=
  if distribution = [] ∨ distribution.sum = 0 then 0 else
  let sorted := List.insertionSort (fun a b => a ≤ b) distribution
  let n := sorted.length
  let numerator := (sorted.enum.map (fun p => ((p.1 : ℚ) + 1) * p.2)).sum
  let denominator := sorted.sum * (n : ℚ)
  if denominator = 0 then 0
  else 2 * numerator / denominator - ((n : ℚ) + 1) / (n : ℚ)

/-- Lower-case a string character-wise (`str.lower()`; only ASCII
letters are affected). -/
def toLowerChars (s : String) : List Char := s.toList.map Char.toLower

/-- Whether `pat` is a leading segment of `hay`. -/
def leadsWith : List Char → List Char → Bool
  | [], _ => true
  | _ :: _, [] => false
  | p :: ps, h :: hs => p == h && leadsWith ps hs

/-- Whether `pat` occurs contiguously inside `hay` (Python's
`pat in hay` on strings). -/
def containsSub : List Char → List Char → Bool
  | [], pat => pat.isEmpty
  | h :: hs, pat => leadsWith pat (h :: hs) || containsSub hs pat

/-- `CollaborativeNegotiation._normalize_principle_name`: keyword
matching into the canonical principle set. -/
def normalize_principle_name (principle : String) : String :=
  let lower := toLowerChars principle
  if ["按需", "需求", "基本需要"].any (fun w => containsSub lower w.toList) then "按需分配"
  else if ["按劳", "贡献", "劳动"].any (fun w => containsSub lower w.toList) then "按劳分配"
  else if ["平等", "均等", "相同"].any (fun w => containsSub lower w.toList) then "平等分配"
  else if ["弱势", "困难", "照顾"].any (fun w => containsSub lower w.toList) then "照顾弱势"
  else if ["效率", "有效"].any (fun w => containsSub lower w.toList) then "效率优先"
  else if ["可持续", "长期", "发展"].any (fun w => containsSub lower w.toList) then "可持续发展"
  else principle

/-- The loop body of
`CollaborativeNegotiation._evaluate_persuasion_effect`: bump the
convinced count when the agent's value type matches the fixed
value-alignment table for the principle. -/
def persuasionStep (principle_name : String) (convinced_count : Nat) (agent : Agent) : Nat :=
  let v := agent.value_type
  if principle_name = "按需分配" ∧ (v = "needs_based" ∨ v = "altruistic") then
    convinced_count + 1
  else if principle_name = "按劳分配" ∧ (v = "merit_based" ∨ v = "pragmatic") then
    convinced_count + 1
  else if principle_name = "平等分配" ∧ (v = "egalitarian" ∨ v = "altruistic") then
    convinced_count + 1
  else if principle_name = "照顾弱势" ∧ (v = "altruistic" ∨ v = "needs_based") then
    convinced_count + 1
  else if principle_name = "效率优先" ∧ (v = "merit_based" ∨ v = "pragmatic") then
    convinced_count + 1
  else if principle_name = "可持续发展" ∧ v = "pragmatic" then
    convinced_count + 1
  else convinced_count

/-- `CollaborativeNegotiation._evaluate_persuasion_effect`: the fixed
value-alignment table.  The persuasion text is taken as an argument but
never inspected, exactly as in the source. -/
def evaluate_persuasion_effect (persuasion : String) (others : List Agent)
    (principle_name : String) : Nat :=
  others.foldl (persuasionStep principle_name) 0

/-- The value-alignment table as a predicate on a single non-supporting
agent's value type (used to state that the convinced count is exactly
the number of aligned non-supporters).  `按需分配` is the canonical
`needs_first`, `按劳分配` is `merit_based`, `平等分配` is `equal`,
`照顾弱势` is `protect_vulnerable`, `效率优先` is `efficiency` and
`可持续发展` is `sustainability`. -/
def valueAligned (principle_name value_type : String) : Bool :=
  if principle_name = "按需分配" ∧ (value_type = "needs_based" ∨ value_type = "altruistic") then true
  else if principle_name = "按劳分配" ∧ (value_type = "merit_based" ∨ value_type = "pragmatic") then true
  else if principle_name = "平等分配" ∧ (value_type = "egalitarian" ∨ value_type = "altruistic") then true
  else if principle_name = "照顾弱势" ∧ (value_type = "altruistic" ∨ value_type = "needs_based") then true
  else if principle_name = "效率优先" ∧ (value_type = "merit_based" ∨ value_type = "pragmatic") then true
  else if principle_name = "可持续发展" ∧ value_type = "pragmatic" then true
  else false

/-- The supporters of a principle in
`_moderate_principle_discussion`: agents whose normalized preference
list contains the principle. -/
def principleSupporters (agents : List Agent) (principle_name : String)
    (prefs : Nat → List String) : List Agent :=
  agents.filter (fun ag =>
    ((prefs ag.id).map normalize_principle_name).contains principle_name)

/-- The non-supporting agents (`others`) of
`_moderate_principle_discussion`. -/
def principleOthers (agents : List Agent) (principle_name : String)
    (prefs : Nat → List String) : List Agent :=
  agents.filter (fun ag =>
    !((prefs ag.id).map normalize_principle_name).contains principle_name)

/-- The adoption message built by `_moderate_principle_discussion`. -/
def adoptionMessage (total n : Nat) : String :=
  "经讨论后获得" ++ toString total ++ "/" ++ toString n ++ "家庭支持，采纳"

/-- The rejection message built by `_moderate_principle_discussion`. -/
def rejectionMessage (total n : Nat) : String :=
  "讨论后仍只有" ++ toString total ++ "/" ++ toString n ++ "家庭支持，不采纳"

/-- `CollaborativeNegotiation._moderate_principle_discussion`.  The
persuasion text produced by the oracle for the advocate is passed in as
`persuasion`; logging calls are omitted.  The returned string is the
result message recorded for the principle. -/
def moderate_principle_discussion (agents : List Agent) (principle_name : String)
    (prefs : Nat → List String) (persuasion : String) : String :=
  let supporters := principleSupporters agents principle_name prefs
  let others := principleOthers agents principle_name prefs
  if supporters.length ≤ 1 then "支持度不足，不采纳"
  else if supporters ≠ [] then
    let convinced_count := evaluate_persuasion_effect persuasion others principle_name
    let total_support := supporters.length + convinced_count
    if agents.length / 2 + 1 ≤ total_support then
      adoptionMessage total_support agents.length
    else
      rejectionMessage total_support agents.length
  else "讨论无结果"

/-- `CollaborativeNegotiation._validate_and_optimize`: if the grand
total deviates from the grain pool by more than `0.01`, rescale every
entry by `total_grain / total_allocated`. -/
def validate_and_optimize (total_grain : ℚ) (allocation : Alloc) : Alloc :=
  let total_allocated := allocTotal allocation
  if 1/100 < |total_allocated - total_grain| then
    allocation.map (fun p =>
      (p.1, p.2.map (fun q => (q.1, q.2 * (total_grain / total_allocated)))))
  else allocation

/-- `CollaborativeNegotiation._create_fallback_proposal`: a plain equal
split of the grain pool. -/
def create_fallback_proposal (agents : List Agent) (total_grain : ℚ) : Alloc :=
  agents.map (fun a => (a.id, [("grain", total_grain / (agents.length : ℚ))]))

/-- `CollaborativeNegotiation.run_collaborative_negotiation`.  The four
negotiation stages are oracle-driven; their chained outcome is modelled
as an `Except` value (`.error` when any stage raises).  The source's
`try/except` returns the stage pipeline's allocation on success and the
fallback proposal on any exception, together with the success flag of
the negotiation data. -/
def run_collaborative_negotiation (agents : List Agent) (total_grain : ℚ)
    (stages : Except String Alloc) : Alloc × Bool :=
  match stages with
  | Except.ok final_proposal => (final_proposal, true)
  | Except.error _ => (create_fallback_proposal agents total_grain, false)

/-- Two agents for exercising the integerizer's decrement pass: agent 2
has a survival need of 3 grain but a zero fractional allocation. -/
def c1Agents : List Agent :=
  [⟨1, 3, 2, "egalitarian"⟩, ⟨2, 3, 0, "needs_based"⟩]

/-- Fractional allocation `{1: {"grain": 5.0}, 2: {"grain": 0.0}}`. -/
def c1Dist : Alloc := [(1, [("grain", 5)]), (2, [("grain", 0)])]

/-- Survival needs `{2: {"grain": 3.0}}`. -/
def c1Needs : Alloc := [(2, [("grain", 3)])]

/-- Two identical two-member one-laborer families. -/
def c2Agents : List Agent :=
  [⟨1, 2, 1, "egalitarian"⟩, ⟨2, 2, 1, "merit_based"⟩]

/-- Survival needs of 3 grain each for `c2Agents`. -/
def c2Needs : Alloc := [(1, [("grain", 3)]), (2, [("grain", 3)])]

/-- Three single-member families. -/
def c5Agents : List Agent :=
  [⟨1, 1, 1, "egalitarian"⟩, ⟨2, 1, 1, "egalitarian"⟩, ⟨3, 1, 1, "egalitarian"⟩]

/-- Two families for the single-supporter persuasion scenario. -/
def c7Agents : List Agent :=
  [⟨1, 3, 1, "egalitarian"⟩, ⟨2, 3, 1, "needs_based"⟩]

/-- Principle preferences: only family 1 names `按需分配`. -/
def c7Prefs : Nat → List String :=
  fun aid => if aid = 1 then ["按需分配"] else []

/-- Three families for the two-supporter persuasion scenario. -/
def c7wAgents : List Agent :=
  [⟨1, 3, 1, "egalitarian"⟩, ⟨2, 3, 1, "merit_based"⟩, ⟨3, 3, 1, "needs_based"⟩]

/-- Principle preferences: families 1 and 2 name `按需分配`. -/
def c7wPrefs : Nat → List String :=
  fun aid => if aid = 1 ∨ aid = 2 then ["按需分配"] else []

theorem lookupRes_setRes_self (m : ResMap) (r : String) (v : ℚ) :
    lookupRes (setRes m r v) r = v := by
  induction m with
  | nil => simp [setRes, lookupRes]
  | cons head tail ih =>
    obtain ⟨r', w⟩ := head
    by_cases hr : r' = r
    · simp [setRes, hr, lookupRes]
    · simp [setRes, hr, lookupRes, ih]

theorem lookupRes_setRes_ne (m : ResMap) (r r' : String) (v : ℚ) (h : r' ≠ r) :
    lookupRes (setRes m r v) r' = lookupRes m r' := by
  induction m with
  | nil => simp [setRes, lookupRes, Ne.symm h]
  | cons head tail ih =>
    obtain ⟨s, w⟩ := head
    by_cases hs : s = r
    · subst hs
      simp [setRes, lookupRes, Ne.symm h]
    · simp [setRes, hs, lookupRes, ih]

theorem lookupD_map_keyfun (l : List Nat) (g : Nat → ResMap) (aid : Nat)
    (h : aid ∈ l) : lookupD (l.map (fun k => (k, g k))) aid = g aid := by
  induction l with
  | nil => cases h
  | cons k t ih =>
    by_cases hk : k = aid
    · subst hk; simp [lookupD]
    · have h' : aid ∈ t := by
        rcases List.mem_cons.mp h with h1 | h1
        · exact absurd h1.symm hk
        · exact h1
      simp [lookupD, hk, ih h']

theorem lookupD_map_row (agents : List Agent) (row : ResMap) (aid : Nat)
    (h : aid ∈ agents.map (fun a => a.id)) :
    lookupD (agents.map (fun a => (a.id, row))) aid = row := by
  induction agents with
  | nil => cases h
  | cons a t ih =>
    by_cases hk : a.id = aid
    · simp [lookupD, hk]
    · rw [List.map_cons] at h
      have h' : aid ∈ t.map (fun a => a.id) := by
        rcases List.mem_cons.mp h with h1 | h1
        · exact absurd h1.symm hk
        · exact h1
      simp [lookupD, hk, ih h']

theorem incLoop_mono (m : Nat → ℤ) (order : List Nat) (need : ℤ) (base : Nat → ℤ)
    (h : ∀ x, m x ≤ base x) : ∀ x, m x ≤ incLoop order need base x := by
  induction order generalizing need base with
  | nil => simpa [incLoop] using h
  | cons a t ih =>
    intro x
    by_cases hn : 0 < need
    · rw [incLoop, if_pos hn]
      refine ih (need - 1) _ (fun y => ?_) x
      unfold updZ
      by_cases hy : y = a
      · simp only [hy, if_pos rfl]
        exact le_trans (h a) (by omega)
      · simp only [if_neg hy]; exact h y
    · rw [incLoop, if_neg hn]; exact h x

theorem decLoop_mono (m : Nat → ℤ) (order : List Nat) (excess : ℤ) (base : Nat → ℤ)
    (h : ∀ x, m x ≤ base x) : ∀ x, m x ≤ decLoop m order excess base x := by
  induction order generalizing excess base with
  | nil => simpa [decLoop] using h
  | cons a t ih =>
    intro x
    by_cases he : 0 < excess
    · by_cases hb : m a < base a
      · rw [decLoop, if_pos he, if_pos hb]
        refine ih (excess - 1) _ (fun y => ?_) x
        unfold updZ
        by_cases hy : y = a
        · simp only [hy, if_pos rfl]; omega
        · simp only [if_neg hy]; exact h y
      · rw [decLoop, if_pos he, if_neg hb]
        exact ih excess base h x
    · rw [decLoop, if_neg he]; exact h x

theorem izMinNeed_le_base0 (dist needs : Alloc) (e : Bool) (aid : Nat) :
    izMinNeed needs e aid ≤ izBase0 dist needs e aid := by
  unfold izBase0
  by_cases h : ⌊izReal dist aid⌋ < izMinNeed needs e aid
  · simp [h]
  · simp [h]; omega

theorem ceil_le_izMinNeed (needs : Alloc) (aid : Nat) :
    ⌈lookupRes (lookupD needs aid) "grain"⌉ ≤ izMinNeed needs true aid := by
  unfold izMinNeed
  by_cases hne : needs = []
  · subst hne
    simp [lookupD, lookupRes]
  · simp only [hne, ne_eq, not_false_iff, and_true, true_and, if_true]
    by_cases hnd : 0 < lookupRes (lookupD needs aid) "grain"
    · simp [hnd]
    · simp only [hnd, if_false]
      exact Int.ceil_le.mpr (by exact_mod_cast le_of_not_lt hnd)

theorem izMinNeed_le_base1 (agents : List Agent) (dist needs : Alloc) (e : Bool)
    (aid : Nat) : izMinNeed needs e aid ≤ izBase1 agents dist needs e aid := by
  unfold izBase1
  by_cases h1 : izBaseSum agents dist needs e < izTarget agents dist
  · simp only [h1, if_true]
    exact incLoop_mono _ _ _ _ (fun x => izMinNeed_le_base0 dist needs e x) aid
  · simp only [h1, if_false]
    by_cases h2 : izTarget agents dist < izBaseSum agents dist needs e
    · simp only [h2, if_true]
      exact decLoop_mono _ _ _ _ (fun x => izMinNeed_le_base0 dist needs e x) aid
    · simp only [h2, if_false]
      exact izMinNeed_le_base0 dist needs e aid

/-- Claim C3 (floor monotonicity): with the survival floor enforced, the
integerized grain value of every listed agent is at least the ceiling
of that agent's grain survival need — the floor-application step raises
the base to the ceiling, increments only add, and decrements are
guarded by the floor. -/
theorem integerize_floor_monotone (pool : ResMap) (agents : List Agent)
    (dist needs : Alloc) (a : Agent) (hd : dist ≠ []) (ha : a ∈ agents) :
    ((⌈lookupRes (lookupD needs a.id) "grain"⌉ : ℤ) : ℚ)
      ≤ getGrain (integerize_distribution pool agents dist needs true) a.id := by
  have hagents : agents ≠ [] := by
    intro h; subst h; cases ha
  unfold integerize_distribution
  rw [if_neg (by simp [hagents, hd])]
  have hmem : a.id ∈ (agents.map (fun x => x.id)).dedup := by
    rw [List.mem_dedup]
    exact List.mem_map.mpr ⟨a, ha, rfl⟩
  unfold getGrain
  rw [lookupD_map_keyfun _ _ _ hmem, lookupRes_setRes_self]
  have h1 := ceil_le_izMinNeed needs a.id
  have h2 := izMinNeed_le_base1 agents dist needs true a.id
  exact_mod_cast le_trans h1 h2

/-- Claim C3 witness: a concrete run in which agent 2's output (3 grain)
meets its ceiling survival floor `⌈3⌉ = 3`. -/
theorem integerize_floor_monotone_witness :
    ((⌈lookupRes (lookupD c1Needs (2 : Nat)) "grain"⌉ : ℤ) : ℚ)
      ≤ getGrain (integerize_distribution [("grain", 5)] c1Agents c1Dist c1Needs true) 2 :=
  integerize_floor_monotone [("grain", 5)] c1Agents c1Dist c1Needs
    ⟨2, 3, 0, "needs_based"⟩ (by simp [c1Dist]) (by simp [c1Agents])

/-- Claim C10 (frame effect): integerization rewrites only the
`"grain"` entry; every other resource entry of every listed agent is
returned unchanged. -/
theorem integerize_frame_non_grain (pool : ResMap) (agents : List Agent)
    (dist needs : Alloc) (enforce : Bool) (a : Agent) (r : String)
    (ha : a ∈ agents) (hr : r ≠ "grain") :
    lookupRes (lookupD (integerize_distribution pool agents dist needs enforce) a.id) r
      = lookupRes (lookupD dist a.id) r := by
  unfold integerize_distribution
  by_cases hg : agents = [] ∨ dist = []
  · rw [if_pos hg]
  · rw [if_neg hg]
    have hmem : a.id ∈ (agents.map (fun x => x.id)).dedup := by
      rw [List.mem_dedup]
      exact List.mem_map.mpr ⟨a, ha, rfl⟩
    rw [lookupD_map_keyfun _ _ _ hmem, lookupRes_setRes_ne _ _ _ _ hr]

/-- Claim C10 witness: a run with an extra `"fish"` resource, whose
entry survives integerization untouched. -/
theorem integerize_frame_non_grain_witness :
    lookupRes
      (lookupD (integerize_distribution [("grain", 5)] c1Agents
        [(1, [("grain", 5), ("fish", 7/2)]), (2, [("grain", 0)])] c1Needs true) 1) "fish"
      = lookupRes (lookupD [(1, [("grain", 5), ("fish", 7/2)]), (2, [("grain", 0)])] 1) "fish" :=
  integerize_frame_non_grain [("grain", 5)] c1Agents
    [(1, [("grain", 5), ("fish", 7/2)]), (2, [("grain", 0)])] c1Needs true
    ⟨1, 3, 2, "egalitarian"⟩ "fish" (by simp [c1Agents]) (by decide)

/-- Claim C6 (degenerate contribution): with every listed agent's labor
force zero, `contribution_based_distribution` returns exactly the
result of `equal_distribution` on the same pool and agents. -/
theorem contribution_degenerate_equal (pool : ResMap) (agents : List Agent)
    (needs : Alloc) (h : ∀ a ∈ agents, a.labor_force = 0) :
    contribution_based_distribution pool agents needs = equal_distribution pool agents := by
  unfold contribution_based_distribution
  by_cases hA : agents = []
  · subst hA
    simp [equal_distribution]
  · rw [if_neg hA]
    have hz : (agents.map (fun a => a.labor_force)).sum = 0 := by
      apply List.sum_eq_zero
      intro x hx
      rcases List.mem_map.mp hx with ⟨a, ha, rfl⟩
      exact h a ha
    rw [if_pos hz]

/-- Claim C6 witness: a concrete all-zero-labor household list. -/
theorem contribution_degenerate_equal_witness :
    contribution_based_distribution [("grain", 10)]
        [⟨1, 2, 0, "egalitarian"⟩, ⟨2, 3, 0, "merit_based"⟩] c2Needs
      = equal_distribution [("grain", 10)]
          [⟨1, 2, 0, "egalitarian"⟩, ⟨2, 3, 0, "merit_based"⟩] :=
  contribution_degenerate_equal [("grain", 10)]
    [⟨1, 2, 0, "egalitarian"⟩, ⟨2, 3, 0, "merit_based"⟩] c2Needs
    (by intro a ha; fin_cases ha <;> rfl)

/-- Claim C1 evaluated at a failing input (status: code bug).  Agent 2
has allocation 0 but a survival floor of ⌈3⌉ = 3, agent 1 has
allocation 5.  The target is `round(5.0) = 5` and the ceiling needs sum
to `3 ≤ 5`, so the claimed guarantee requires an output total of 5; but
the decrement loop makes a single pass, decrementing each agent at most
once, so only one unit is removed and the output totals 7. -/
theorem integerize_single_pass_shortfall :
    izTarget c1Agents c1Dist = 5
    ∧ (c1Agents.map (fun a => ⌈lookupRes (lookupD c1Needs a.id) "grain"⌉)).sum = 3
    ∧ grainTotal (integerize_distribution [("grain", 5)] c1Agents c1Dist c1Needs true) = 7
    ∧ (7 : ℚ) ≠ ((izTarget c1Agents c1Dist : ℤ) : ℚ) := by
  refine ⟨?_, ?_, ?_, ?_⟩
  · norm_num [izTarget, izReal, pyRound, c1Agents, c1Dist, lookupD, lookupRes, List.dedup]
  · norm_num [c1Agents, c1Needs, lookupD, lookupRes]
  · norm_num [integerize_distribution, izBase1, izBase0, izBaseSum, izTarget, izMinNeed,
      izFrac, izReal, pyRound, sortAscBy, sortDescBy, List.insertionSort, List.orderedInsert,
      incLoop, decLoop, updZ, lookupD, lookupRes, setRes, grainTotal, List.dedup,
      c1Agents, c1Dist, c1Needs, List.cons_ne_nil, reduceIte]
  · norm_num [izTarget, izReal, pyRound, c1Agents, c1Dist, lookupD, lookupRes, List.dedup]

theorem sum_map_add_q {α : Type} (l : List α) (f g : α → ℚ) :
    (l.map (fun x => f x + g x)).sum = (l.map f).sum + (l.map g).sum := by
  induction l with
  | nil => simp
  | cons a t ih => simp [ih]; ring

theorem sum_map_mul_left_q {α : Type} (l : List α) (f : α → ℚ) (c : ℚ) :
    (l.map (fun x => f x * c)).sum = (l.map f).sum * c := by
  induction l with
  | nil => simp
  | cons a t ih => simp [ih]; ring

theorem sum_map_div_q {α : Type} (l : List α) (f : α → ℚ) (c : ℚ) :
    (l.map (fun x => f x / c)).sum = (l.map f).sum / c := by
  simpa [div_eq_mul_inv] using sum_map_mul_left_q l f c⁻¹

theorem sum_map_const_q {α : Type} (l : List α) (c : ℚ) :
    (l.map (fun _ => c)).sum = (l.length : ℚ) * c := by
  induction l with
  | nil => simp
  | cons a t ih => simp [ih]; ring

theorem sum_swap_q {α β : Type} (A : List α) (P : List β) (f : α → β → ℚ) :
    (A.map (fun a => (P.map (fun p => f a p)).sum)).sum
      = (P.map (fun p => (A.map (fun a => f a p)).sum)).sum := by
  induction A with
  | nil => simp [sum_map_const_q]
  | cons a t ih =>
    simp only [List.map_cons, List.sum_cons, ih, ← sum_map_add_q]

theorem natCast_sum_map {α : Type} (l : List α) (f : α → ℕ) :
    (((l.map f).sum : ℕ) : ℚ) = (l.map (fun x => (f x : ℚ))).sum := by
  rw [Nat.cast_list_sum, List.map_map]
  rfl

theorem sum_lookup_needs (agents : List Agent) (needs : Alloc) (r : String)
    (hkeys : needs.map Prod.fst = agents.map (fun a => a.id))
    (hnd : (agents.map (fun a => a.id)).Nodup) :
    (agents.map (fun a => lookupRes (lookupD needs a.id) r)).sum
      = (needs.map (fun q => lookupRes q.2 r)).sum := by
  induction agents generalizing needs with
  | nil =>
    have hn : needs = [] := by
      cases needs with
      | nil => rfl
      | cons q ns => simp at hkeys
    simp [hn]
  | cons a t ih =>
    cases needs with
    | nil => simp at hkeys
    | cons q ns =>
      obtain ⟨k, m⟩ := q
      rw [List.map_cons, List.map_cons] at hkeys
      have hk : k = a.id := (List.cons.injEq _ _ _ _).mp hkeys |>.1
      have hrest : ns.map Prod.fst = t.map (fun a => a.id) :=
        (List.cons.injEq _ _ _ _).mp hkeys |>.2
      rw [List.map_cons] at hnd
      have hnotmem : a.id ∉ t.map (fun a => a.id) := (List.nodup_cons.mp hnd).1
      have hndt : (t.map (fun a => a.id)).Nodup := (List.nodup_cons.mp hnd).2
      subst hk
      rw [List.map_cons, List.map_cons, List.sum_cons, List.sum_cons]
      have hhead : lookupD ((a.id, m) :: ns) a.id = m := by simp [lookupD]
      have hcongr : t.map (fun x => lookupRes (lookupD ((a.id, m) :: ns) x.id) r)
          = t.map (fun x => lookupRes (lookupD ns x.id) r) := by
        apply List.map_congr_left
        intro x hx
        have hxa : ¬ (a.id = x.id) := by
          intro hcontra
          exact hnotmem (hcontra ▸ List.mem_map.mpr ⟨x, hx, rfl⟩)
        rw [lookupD, if_neg hxa]
      rw [hhead, hcongr, ih ns hrest hndt]

theorem allocTotal_rows (agents : List Agent) (g : Agent → ResMap) :
    allocTotal (agents.map (fun a => (a.id, g a)))
      = (agents.map (fun a => ((g a).map (fun q => q.2)).sum)).sum := by
  simp only [allocTotal, List.map_map]
  rfl

theorem row_values_sum (pool : ResMap) (F : String × ℚ → ℚ) :
    ((pool.map (fun p => (p.1, F p))).map (fun q => q.2)).sum
      = (pool.map (fun p => F p)).sum := by
  simp only [List.map_map]
  rfl

theorem equal_pre_conserves (pool : ResMap) (agents : List Agent)
    (hne : agents ≠ []) :
    allocTotal (equal_pre pool agents) = poolTotal pool := by
  unfold equal_pre
  rw [allocTotal_rows]
  have hrow : ∀ a : Agent,
      ((pool.map (fun p => (p.1, p.2 / (agents.length : ℚ)))).map (fun q => q.2)).sum
        = poolTotal pool / (agents.length : ℚ) := by
    intro a
    rw [row_values_sum pool (fun p => p.2 / (agents.length : ℚ))]
    exact sum_map_div_q pool (fun p => p.2) _
  calc (agents.map (fun a =>
          ((pool.map (fun p => (p.1, p.2 / (agents.length : ℚ)))).map (fun q => q.2)).sum)).sum
      = (agents.map (fun _ => poolTotal pool / (agents.length : ℚ))).sum := by
        apply congrArg
        exact List.map_congr_left (fun a _ => hrow a)
    _ = (agents.length : ℚ) * (poolTotal pool / (agents.length : ℚ)) := sum_map_const_q _ _
    _ = poolTotal pool := by
        have hlen : (agents.length : ℚ) ≠ 0 := by
          simpa using List.length_pos.mpr hne |>.ne'
        field_simp

theorem contribution_pre_conserves (pool : ResMap) (agents : List Agent) (needs : Alloc)
    (hkeys : needs.map Prod.fst = agents.map (fun a => a.id))
    (hnd : (agents.map (fun a => a.id)).Nodup)
    (hlab : (agents.map (fun a => a.labor_force)).sum ≠ 0)
    (hle : ∀ p ∈ pool, needsTotalFor needs p.1 ≤ p.2) :
    allocTotal (contribution_pre pool agents needs) = poolTotal pool := by
  unfold contribution_pre
  have hL : (0 : ℚ) < (((agents.map (fun a => a.labor_force)).sum : ℕ) : ℚ) := by
    exact_mod_cast Nat.pos_of_ne_zero hlab
  set L : ℚ := (((agents.map (fun a => a.labor_force)).sum : ℕ) : ℚ) with hLdef
  rw [allocTotal_rows]
  have hrow : ∀ a : Agent, (((pool.map (fun p =>
      (p.1, lookupRes (lookupD needs a.id) p.1
        + (if 0 < L then (a.labor_force : ℚ) / L else 0)
            * max 0 (p.2 - needsTotalFor needs p.1)))).map (fun q => q.2)).sum)
      = (pool.map (fun p => lookupRes (lookupD needs a.id) p.1
          + ((a.labor_force : ℚ) / L) * max 0 (p.2 - needsTotalFor needs p.1))).sum := by
    intro a
    rw [row_values_sum]
    apply congrArg
    exact List.map_congr_left (fun p _ => by rw [if_pos hL])
  calc (agents.map (fun a => ((pool.map (fun p =>
          (p.1, lookupRes (lookupD needs a.id) p.1
            + (if 0 < L then (a.labor_force : ℚ) / L else 0)
                * max 0 (p.2 - needsTotalFor needs p.1)))).map (fun q => q.2)).sum)).sum
      = (agents.map (fun a => (pool.map (fun p => lookupRes (lookupD needs a.id) p.1
          + ((a.labor_force : ℚ) / L) * max 0 (p.2 - needsTotalFor needs p.1))).sum)).sum := by
        apply congrArg
        exact List.map_congr_left (fun a _ => hrow a)
    _ = (pool.map (fun p => (agents.map (fun a => lookupRes (lookupD needs a.id) p.1
          + ((a.labor_force : ℚ) / L) * max 0 (p.2 - needsTotalFor needs p.1))).sum)).sum :=
        sum_swap_q agents pool _
    _ = (pool.map (fun p => p.2)).sum := by
        apply congrArg
        apply List.map_congr_left
        intro p hp
        rw [sum_map_add_q]
        have h1 : (agents.map (fun a => lookupRes (lookupD needs a.id) p.1)).sum
            = needsTotalFor needs p.1 := sum_lookup_needs agents needs p.1 hkeys hnd
        have h2 : (agents.map (fun a =>
            ((a.labor_force : ℚ) / L) * max 0 (p.2 - needsTotalFor needs p.1))).sum
            = (agents.map (fun a => (a.labor_force : ℚ) / L)).sum
                * max 0 (p.2 - needsTotalFor needs p.1) := sum_map_mul_left_q _ _ _
    
        have h3 : (agents.map (fun a => (a.labor_force : ℚ) / L)).sum = 1 := by
          rw [sum_map_div_q agents (fun a => (a.labor_force : ℚ)) L]
          rw [← natCast_sum_map agents (fun a => a.labor_force), ← hLdef]
          exact div_self hL.ne'
        have h4 : max 0 (p.2 - needsTotalFor needs p.1) = p.2 - needsTotalFor needs p.1 :=
          max_eq_right (sub_nonneg.mpr (hle p hp))
        rw [h1, h2, h3, h4]
        ring
    _ = poolTotal pool := rfl

/-- Claim C2 counterexample: `needs_based_distribution`'s fractional
allocation does not conserve the pool.  With two 2-member 1-laborer
families (labor density exactly 0.5, so the 20% special-need tranche
has zero total weight) and a pool of 100 grain, stages 1-2 hand out
only `70 + 30·(0.5+0.3) = 94` units, and the per-capita floor pass does
not fire; the deviation 6 far exceeds 1e-6. -/
theorem needs_based_conservation_cex :
    allocTotal (needs_based_pre [("grain", 100)] c2Agents c2Needs) = 94
    ∧ ¬ |allocTotal (needs_based_pre [("grain", 100)] c2Agents c2Needs)
          - poolTotal [("grain", 100)]| ≤ 1/1000000 := by
  have h : allocTotal (needs_based_pre [("grain", 100)] c2Agents c2Needs) = 94 := by
    norm_num [needs_based_pre, needsBasedStage3, needsBasedStage12, specialNeedWeight,
      specialNeedWeightRaw, laborDensity, allocTotal, c2Agents, c2Needs,
      List.cons_ne_nil, List.filter, reduceIte]
  refine ⟨h, ?_⟩
  rw [h]
  norm_num [poolTotal]

/-- Claim C2 as amended: before integerization, the Equal strategy
conserves the pool exactly, and the ContributionBased strategy
conserves it exactly whenever total labor force is positive, the needs
dict is keyed exactly by the listed agents, and per resource the
survival needs do not exceed the pool.  (NeedsBased can fall short —
see the counterexample — and Altruistic/Pragmatic inherit
non-conservation from sequential consumption and from blending already
integerized allocations.) -/
theorem conservation_equal_contribution (pool : ResMap) (agents : List Agent)
    (needs : Alloc) (hne : agents ≠ [])
    (hkeys : needs.map Prod.fst = agents.map (fun a => a.id))
    (hnd : (agents.map (fun a => a.id)).Nodup)
    (hlab : (agents.map (fun a => a.labor_force)).sum ≠ 0)
    (hle : ∀ p ∈ pool, needsTotalFor needs p.1 ≤ p.2) :
    allocTotal (equal_pre pool agents) = poolTotal pool
    ∧ allocTotal (contribution_pre pool agents needs) = poolTotal pool :=
  ⟨equal_pre_conserves pool agents hne,
   contribution_pre_conserves pool agents needs hkeys hnd hlab hle⟩

/-- Claim C2 witness: both conservation statements at a concrete pool,
agent pair and needs map. -/
theorem conservation_equal_contribution_witness :
    allocTotal (equal_pre [("grain", 100)] c2Agents) = poolTotal [("grain", 100)]
    ∧ allocTotal (contribution_pre [("grain", 100)] c2Agents c2Needs)
        = poolTotal [("grain", 100)] :=
  conservation_equal_contribution [("grain", 100)] c2Agents c2Needs
    (by simp [c2Agents]) (by rfl) (by decide)
    (by decide)
    (by
      intro p hp
      rw [List.mem_singleton] at hp
      subst hp
      norm_num [needsTotalFor, c2Needs, lookupRes])

theorem sum_map_const_z {α : Type} (l : List α) (c : ℤ) :
    (l.map (fun _ => c)).sum = (l.length : ℤ) * c := by
  induction l with
  | nil => simp
  | cons a t ih => simp [ih]; ring

theorem pyRound_intCast (z : ℤ) : pyRound ((z : ℤ) : ℚ) = z := by
  unfold pyRound
  norm_num [Int.floor_intCast]

theorem lookupRes_map_div (pool : ResMap) (c : ℚ) (r : String) :
    lookupRes (pool.map (fun p => (p.1, p.2 / c))) r = lookupRes pool r / c := by
  induction pool with
  | nil => simp [lookupRes]
  | cons p t ih =>
    obtain ⟨s, v⟩ := p
    by_cases hs : s = r
    · simp [lookupRes, hs]
    · simp [lookupRes, hs, ih]

/-- Claim C5 counterexample: the Equal strategy does not return
`total / n` for the grain resource.  Splitting 10 grain among 3 agents,
the largest-remainder integerization returns 4 grain to agent 1, not
`10/3`. -/
theorem equal_distribution_grain_cex :
    getGrain (equal_distribution [("grain", 10)] c5Agents) 1 = 4
    ∧ (4 : ℚ) ≠ 10 / (c5Agents.length : ℚ) := by
  constructor
  · norm_num [equal_distribution, equal_pre, integerize_distribution, izBase1, izBase0,
      izBaseSum, izTarget, izMinNeed, izFrac, izReal, pyRound, sortAscBy, sortDescBy,
      List.insertionSort, List.orderedInsert, incLoop, decLoop, updZ, lookupD, lookupRes,
      setRes, getGrain, List.dedup, c5Agents, List.cons_ne_nil, reduceIte]
  · norm_num [c5Agents]

theorem equal_pre_ne_nil (pool : ResMap) (agents : List Agent) (h : agents ≠ []) :
    equal_pre pool agents ≠ [] := by
  unfold equal_pre
  simpa using h

/-- Claim C5 as amended: for every listed agent, the Equal strategy's
pre-integerization share is `total / n` for every resource, and this is
also what the strategy returns for every non-grain resource; for grain
it returns the integerized share, which equals `total / n` whenever
`total / n` is a (nonnegative) integer — in particular 30 each for 90
grain among 3 agents. -/
theorem equal_distribution_amended (pool : ResMap) (agents : List Agent)
    (hnd : (agents.map (fun a => a.id)).Nodup) (a : Agent) (ha : a ∈ agents) :
    (∀ r, r ≠ "grain" →
      lookupRes (lookupD (equal_distribution pool agents) a.id) r
        = lookupRes pool r / (agents.length : ℚ))
    ∧ (∀ k : ℤ, 0 ≤ k → lookupRes pool "grain" = (k : ℚ) * (agents.length : ℚ) →
        getGrain (equal_distribution pool agents) a.id = (k : ℚ)) := by
  have hne : agents ≠ [] := by intro h; subst h; cases ha
  have hlen : agents.length ≠ 0 := by simpa using List.length_pos.mpr hne |>.ne'
  have hpre : equal_pre pool agents ≠ [] := equal_pre_ne_nil pool agents hne
  have hids : a.id ∈ agents.map (fun x => x.id) := List.mem_map.mpr ⟨a, ha, rfl⟩
  have hmem : a.id ∈ (agents.map (fun x => x.id)).dedup := List.mem_dedup.mpr hids
  have hrowD : ∀ x ∈ agents.map (fun y => y.id),
      lookupD (equal_pre pool agents) x
        = pool.map (fun p => (p.1, p.2 / (agents.length : ℚ))) := by
    intro x hx
    exact lookupD_map_row agents _ x hx
  have hout : equal_distribution pool agents
      = (agents.map (fun x => x.id)).dedup.map (fun aid =>
          (aid, setRes (lookupD (equal_pre pool agents) aid) "grain"
            ((izBase1 agents (equal_pre pool agents) [] false aid : ℤ) : ℚ))) := by
    unfold equal_distribution
    rw [if_neg hlen]
    unfold integerize_distribution
    rw [if_neg (by simp [hne, hpre])]
  have hlook : lookupD (equal_distribution pool agents) a.id
      = setRes (lookupD (equal_pre pool agents) a.id) "grain"
          ((izBase1 agents (equal_pre pool agents) [] false a.id : ℤ) : ℚ) := by
    rw [hout]
    exact lookupD_map_keyfun _ _ _ hmem
  constructor
  · intro r hr
    rw [hlook, lookupRes_setRes_ne _ _ _ _ hr, hrowD a.id hids, lookupRes_map_div]
  · intro k hk hT
    have hreal : ∀ x ∈ agents.map (fun y => y.id),
        izReal (equal_pre pool agents) x = (k : ℚ) := by
      intro x hx
      unfold izReal
      rw [hrowD x hx, lookupRes_map_div, hT]
      rw [mul_div_assoc, div_self (by exact_mod_cast hlen), mul_one]
    have hmin : ∀ x, izMinNeed [] false x = 0 := by
      intro x
      unfold izMinNeed
      simp
    have hbase0 : ∀ x ∈ agents.map (fun y => y.id),
        izBase0 (equal_pre pool agents) [] false x = k := by
      intro x hx
      unfold izBase0
      rw [hmin x, hreal x hx, Int.floor_intCast]
      rw [if_neg (by omega)]
    have hdedup : (agents.map (fun y => y.id)).dedup = agents.map (fun y => y.id) :=
      List.dedup_eq_self.mpr hnd
    have htarget : izTarget agents (equal_pre pool agents) = (agents.length : ℤ) * k := by
      unfold izTarget
      rw [hdedup]
      have hconst : (agents.map (fun y => y.id)).map (izReal (equal_pre pool agents))
          = (agents.map (fun y => y.id)).map (fun _ => (k : ℚ)) :=
        List.map_congr_left (fun x hx => hreal x hx)
      rw [hconst, sum_map_const_q]
      have : ((agents.map (fun y => y.id)).length : ℚ) * (k : ℚ)
          = (((agents.length : ℤ) * k : ℤ) : ℚ) := by
        push_cast [List.length_map]
        ring
      rw [this, pyRound_intCast]
    have hbsum : izBaseSum agents (equal_pre pool agents) [] false
        = (agents.length : ℤ) * k := by
      unfold izBaseSum
      rw [hdedup]
      have hconst : (agents.map (fun y => y.id)).map (izBase0 (equal_pre pool agents) [] false)
          = (agents.map (fun y => y.id)).map (fun _ => k) :=
        List.map_congr_left (fun x hx => hbase0 x hx)
      rw [hconst, sum_map_const_z, List.length_map]
    have hb1 : izBase1 agents (equal_pre pool agents) [] false a.id = k := by
      simp only [izBase1]
      rw [htarget, hbsum]
      rw [if_neg (lt_irrefl _), if_neg (lt_irrefl _)]
      exact hbase0 a.id hids
    unfold getGrain
    rw [hlook, lookupRes_setRes_self, hb1]

/-- Claim C4: the Gini coefficient is 0 for empty or all-zero
nonnegative inputs; for any other nonnegative input it equals
`2·Σ((i+1)·x_i) / (Σx · n) − (n+1)/n` computed over any ascending
sorted rearrangement `s` of the input; and `gini [0,0,30] = 2/3`. -/
theorem gini_spec (l s : List ℚ) (hnn : ∀ x ∈ l, 0 ≤ x)
    (hperm : s.Perm l) (hsort : s.Sorted (fun a b => a ≤ b)) :
    ((l = [] ∨ ∀ x ∈ l, x = 0) → calculate_gini_coefficient l = 0)
    ∧ ((∃ x ∈ l, x ≠ 0) →
        calculate_gini_coefficient l
          = 2 * ((s.enum.map (fun p => ((p.1 : ℚ) + 1) * p.2)).sum)
              / (s.sum * (s.length : ℚ))
            - ((s.length : ℚ) + 1) / (s.length : ℚ))
    ∧ calculate_gini_coefficient [0, 0, 30] = 2/3 := by
  refine ⟨?_, ?_, ?_⟩
  · intro h
    unfold calculate_gini_coefficient
    rcases h with h | h
    · rw [if_pos (Or.inl h)]
    · rw [if_pos (Or.inr (List.sum_eq_zero h))]
  · rintro ⟨x, hx, hxne⟩
    have hxpos : 0 < x := lt_of_le_of_ne (hnn x hx) (Ne.symm hxne)
    have hsum : 0 < l.sum := lt_of_lt_of_le hxpos (List.single_le_sum hnn x hx)
    have hlne : l ≠ [] := by intro h; subst h; cases hx
    have hsorteq : List.insertionSort (fun a b => a ≤ b) l = s := by
      apply List.eq_of_perm_of_sorted
        ((List.perm_insertionSort _ l).trans hperm.symm)
        (List.sorted_insertionSort _ l) hsort
    unfold calculate_gini_coefficient
    rw [if_neg (by simp [hlne, hsum.ne'])]
    rw [hsorteq]
    rw [if_neg (by
      apply mul_ne_zero
      · rw [hperm.sum_eq]; exact hsum.ne'
      · have := List.length_pos.mpr hlne
        rw [hperm.length_eq]
        exact_mod_cast this.ne')]
  · norm_num [calculate_gini_coefficient, List.insertionSort, List.orderedInsert,
      List.enum, List.enumFrom, List.cons_ne_nil, reduceIte]

/-- Claim C4 witness: the theorem instantiated at `[0,0,30]`, yielding
the concrete value 2/3. -/
theorem gini_spec_witness : calculate_gini_coefficient [0, 0, 30] = 2/3 :=
  (gini_spec [0, 0, 30] [0, 0, 30] (by norm_num) (List.Perm.refl _) (by decide)).2.2

theorem persuasionStep_eq (pname : String) (n : Nat) (a : Agent) :
    persuasionStep pname n a = if valueAligned pname a.value_type then n + 1 else n := by
  unfold persuasionStep valueAligned
  dsimp only
  split_ifs <;> simp_all

theorem foldl_persuasionStep (pname : String) (os : List Agent) :
    ∀ n : Nat, os.foldl (persuasionStep pname) n
      = n + (os.filter (fun ag => valueAligned pname ag.value_type)).length := by
  induction os with
  | nil => intro n; simp
  | cons a t ih =>
    intro n
    rw [List.foldl_cons, ih, persuasionStep_eq, List.filter_cons]
    by_cases hb : valueAligned pname a.value_type = true
    · rw [if_pos hb, if_pos hb, List.length_cons]
      omega
    · rw [if_neg hb, if_neg hb]

theorem evaluate_persuasion_count (persuasion pname : String) (others : List Agent) :
    evaluate_persuasion_effect persuasion others pname
      = (others.filter (fun ag => valueAligned pname ag.value_type)).length := by
  unfold evaluate_persuasion_effect
  simpa using foldl_persuasionStep pname others 0

theorem nat_half_lt_iff (n t : ℕ) : (n / 2 + 1 ≤ t) ↔ ((n : ℚ) / 2 < (t : ℚ)) := by
  rw [Nat.add_one_le_iff, Nat.div_lt_iff_lt_mul (by norm_num : 0 < 2)]
  constructor
  · intro h
    rw [div_lt_iff (by norm_num : (0:ℚ) < 2)]
    exact_mod_cast h
  · intro h
    have := (div_lt_iff (by norm_num : (0:ℚ) < 2)).mp h
    exact_mod_cast this

theorem adoptionMessage_ne_rejectionMessage (t n : Nat) :
    rejectionMessage t n ≠ adoptionMessage t n := by
  intro h
  have hlen := congrArg String.length h
  simp only [adoptionMessage, rejectionMessage, String.length_append] at hlen
  have h1 : ("经讨论后获得" : String).length = 6 := rfl
  have h2 : ("讨论后仍只有" : String).length = 6 := rfl
  have h3 : ("家庭支持，采纳" : String).length = 7 := rfl
  have h4 : ("家庭支持，不采纳" : String).length = 8 := rfl
  have h5 : ("/" : String).length = 1 := rfl
  rw [h1, h2, h3, h4, h5] at hlen
  omega

/-- Claim C7 counterexample: with two families, one supporter of
`按需分配` (needs_first) and one non-supporter of value type
`needs_based`, the table would convince the non-supporter, so
supporters + convinced = 2 > n/2 = 1 and the claim requires adoption;
but the source drops any principle with at most one supporter before
the persuasion round, returning `支持度不足，不采纳` (not adopted). -/
theorem persuasion_single_supporter_cex :
    moderate_principle_discussion c7Agents "按需分配" c7Prefs "示例说服发言"
      = "支持度不足，不采纳"
    ∧ ((c7Agents.length : ℚ) / 2
        < (((principleSupporters c7Agents "按需分配" c7Prefs).length
            + evaluate_persuasion_effect "示例说服发言"
                (principleOthers c7Agents "按需分配" c7Prefs) "按需分配" : ℕ) : ℚ)) := by
  constructor
  · rfl
  · have hs : (principleSupporters c7Agents "按需分配" c7Prefs).length = 1 := rfl
    have hc : evaluate_persuasion_effect "示例说服发言"
        (principleOthers c7Agents "按需分配" c7Prefs) "按需分配" = 1 := rfl
    rw [hs, hc]
    norm_num [c7Agents]

/-- Claim C7 as amended: provided the disputed principle has at least
two supporters (otherwise the source rejects it before any persuasion
round), the convinced count is exactly the number of non-supporters
whose value type matches the fixed alignment table — independent of the
persuasion text — and the principle is adopted (the discussion returns
the adoption message) if and only if supporters + convinced exceeds
n/2. -/
theorem persuasion_adoption_iff (agents : List Agent) (pname persuasion : String)
    (prefs : Nat → List String)
    (h2 : 2 ≤ (principleSupporters agents pname prefs).length) :
    evaluate_persuasion_effect persuasion (principleOthers agents pname prefs) pname
      = ((principleOthers agents pname prefs).filter
          (fun ag => valueAligned pname ag.value_type)).length
    ∧ (moderate_principle_discussion agents pname prefs persuasion
        = adoptionMessage ((principleSupporters agents pname prefs).length
            + evaluate_persuasion_effect persuasion (principleOthers agents pname prefs) pname)
            agents.length
      ↔ ((agents.length : ℚ) / 2
          < (((principleSupporters agents pname prefs).length
              + evaluate_persuasion_effect persuasion
                  (principleOthers agents pname prefs) pname : ℕ) : ℚ))) := by
  refine ⟨evaluate_persuasion_count persuasion pname _, ?_⟩
  have hnotle : ¬ (principleSupporters agents pname prefs).length ≤ 1 := by omega
  have hne : principleSupporters agents pname prefs ≠ [] := by
    intro h
    rw [h] at h2
    simp at h2
  unfold moderate_principle_discussion
  rw [if_neg hnotle, if_pos hne]
  by_cases hcond : agents.length / 2 + 1
      ≤ (principleSupporters agents pname prefs).length
        + evaluate_persuasion_effect persuasion (principleOthers agents pname prefs) pname
  · rw [if_pos hcond]
    exact iff_of_true rfl ((nat_half_lt_iff _ _).mp hcond)
  · rw [if_neg hcond]
    exact iff_of_false (adoptionMessage_ne_rejectionMessage _ _)
      (fun h => hcond ((nat_half_lt_iff _ _).mpr h))

/-- Claim C7 witness: three families, two supporting `按需分配`, one
`needs_based` non-supporter who is convinced by the table; total
support 3 of 3 exceeds 3/2, and the discussion indeed returns the
adoption message. -/
theorem persuasion_adoption_iff_witness :
    evaluate_persuasion_effect "示例" (principleOthers c7wAgents "按需分配" c7wPrefs) "按需分配"
      = ((principleOthers c7wAgents "按需分配" c7wPrefs).filter
          (fun ag => valueAligned "按需分配" ag.value_type)).length
    ∧ (moderate_principle_discussion c7wAgents "按需分配" c7wPrefs "示例"
        = adoptionMessage ((principleSupporters c7wAgents "按需分配" c7wPrefs).length
            + evaluate_persuasion_effect "示例"
                (principleOthers c7wAgents "按需分配" c7wPrefs) "按需分配")
            c7wAgents.length
      ↔ ((c7wAgents.length : ℚ) / 2
          < (((principleSupporters c7wAgents "按需分配" c7wPrefs).length
              + evaluate_persuasion_effect "示例"
                  (principleOthers c7wAgents "按需分配" c7wPrefs) "按需分配" : ℕ) : ℚ))) :=
  persuasion_adoption_iff c7wAgents "按需分配" "示例" c7wPrefs (by rfl)

/-- Claim C5 witness: 90 grain among 3 agents — the amended theorem's
grain clause yields exactly 30 per agent. -/
theorem equal_distribution_amended_witness :
    getGrain (equal_distribution [("grain", 90)] c5Agents) 1 = ((30 : ℤ) : ℚ) :=
  (equal_distribution_amended [("grain", 90)] c5Agents (by decide)
    ⟨1, 1, 1, "egalitarian"⟩ (by decide)).2 30 (by norm_num)
    (by norm_num [lookupRes, c5Agents])

theorem allocTotal_scale (alloc : Alloc) (c : ℚ) :
    allocTotal (alloc.map (fun p => (p.1, p.2.map (fun q => (q.1, q.2 * c)))))
      = allocTotal alloc * c := by
  unfold allocTotal
  rw [List.map_map]
  have hcongr : (alloc.map ((fun pr : Nat × ResMap => (pr.2.map (fun q => q.2)).sum)
        ∘ (fun p : Nat × ResMap => (p.1, p.2.map (fun q => (q.1, q.2 * c))))))
      = alloc.map (fun p => (p.2.map (fun q => q.2)).sum * c) := by
    apply List.map_congr_left
    intro p _
    show ((p.2.map (fun q => (q.1, q.2 * c))).map (fun q => q.2)).sum = _
    rw [row_values_sum p.2 (fun q => q.2 * c), sum_map_mul_left_q]
  rw [hcongr, sum_map_mul_left_q]

/-- Claim C8 counterexample: an allocation whose total (99.995) differs
from the 100-grain pool by only 0.005 is inside the 0.01 tolerance, so
`_validate_and_optimize` returns it unchanged and the grand total does
not equal the pool total. -/
theorem validate_within_tolerance_cex :
    validate_and_optimize 100 [(1, [("grain", 19999/200)])]
      = [(1, [("grain", 19999/200)])]
    ∧ allocTotal [(1, [("grain", 19999/200)])] ≠ poolTotal [("grain", 100)]
    ∧ 0 < allocTotal [(1, [("grain", 19999/200)])] := by
  have h1 : allocTotal [(1, [("grain", (19999/200 : ℚ))])] = 19999/200 := by
    norm_num [allocTotal]
  refine ⟨?_, ?_, ?_⟩
  · unfold validate_and_optimize
    rw [if_neg]
    rw [h1, abs_of_nonpos (by norm_num)]
    norm_num
  · rw [h1]
    norm_num [poolTotal]
  · rw [h1]
    norm_num

/-- Claim C8 as amended: when the grand total of a positive-total
allocation deviates from the grain pool by more than 0.01, every entry
is rescaled by `total_grain / current_sum` and the new grand total
equals the pool exactly; within the 0.01 tolerance the allocation is
returned unchanged (so a residual deviation of up to 0.01 persists). -/
theorem validate_and_optimize_amended (tg : ℚ) (alloc : Alloc)
    (hpos : 0 < allocTotal alloc) :
    (1/100 < |allocTotal alloc - tg| →
      allocTotal (validate_and_optimize tg alloc) = tg)
    ∧ (¬ 1/100 < |allocTotal alloc - tg| →
      validate_and_optimize tg alloc = alloc) := by
  constructor
  · intro h
    unfold validate_and_optimize
    rw [if_pos h, allocTotal_scale]
    rw [mul_div_assoc']
    rw [mul_comm, mul_div_assoc, div_self hpos.ne', mul_one]
  · intro h
    unfold validate_and_optimize
    rw [if_neg h]

/-- Claim C8 witness: a total of 50 against a pool of 100 is outside
the tolerance and gets rescaled to exactly 100. -/
theorem validate_and_optimize_amended_witness :
    allocTotal (validate_and_optimize 100 [(1, [("grain", 50)])]) = 100 :=
  (validate_and_optimize_amended 100 [(1, [("grain", 50)])]
    (by norm_num [allocTotal])).1 (by norm_num [allocTotal])

/-- Claim C9 (fallback totality): if the chained negotiation stages
raise (modelled as an `Except.error`), the session returns the Equal
fallback proposal: an allocation that covers every listed agent, whose
grand total equals the pool total exactly. -/
theorem negotiation_fallback_total (agents : List Agent) (g : ℚ) (e : String)
    (hne : agents ≠ []) :
    (run_collaborative_negotiation agents (lookupRes [("grain", g)] "grain")
        (Except.error e)).1
      = create_fallback_proposal agents (lookupRes [("grain", g)] "grain")
    ∧ allocTotal (run_collaborative_negotiation agents
        (lookupRes [("grain", g)] "grain") (Except.error e)).1
      = poolTotal [("grain", g)]
    ∧ ∀ a ∈ agents,
        getGrain (run_collaborative_negotiation agents
          (lookupRes [("grain", g)] "grain") (Except.error e)).1 a.id
          = g / (agents.length : ℚ) := by
  have hg : lookupRes [("grain", g)] "grain" = g := by simp [lookupRes]
  have hrun : (run_collaborative_negotiation agents
      (lookupRes [("grain", g)] "grain") (Except.error e)).1
      = create_fallback_proposal agents (lookupRes [("grain", g)] "grain") := rfl
  have hlen : (agents.length : ℚ) ≠ 0 := by
    simpa using List.length_pos.mpr hne |>.ne'
  refine ⟨hrun, ?_, ?_⟩
  · rw [hrun, hg]
    unfold create_fallback_proposal
    rw [allocTotal_rows]
    have hrow : ∀ a : Agent,
        (([("grain", g / (agents.length : ℚ))] : ResMap).map (fun q => q.2)).sum
          = g / (agents.length : ℚ) := by
      intro a; simp
    calc (agents.map (fun a =>
            (([("grain", g / (agents.length : ℚ))] : ResMap).map (fun q => q.2)).sum)).sum
        = (agents.map (fun _ => g / (agents.length : ℚ))).sum := by
          exact congrArg _ (List.map_congr_left (fun a _ => hrow a))
      _ = (agents.length : ℚ) * (g / (agents.length : ℚ)) := sum_map_const_q _ _
      _ = poolTotal [("grain", g)] := by
          rw [poolTotal]
          field_simp
  · intro a ha
    rw [hrun, hg]
    unfold getGrain create_fallback_proposal
    rw [lookupD_map_row agents _ a.id (List.mem_map.mpr ⟨a, ha, rfl⟩)]
    simp [lookupRes]

/-- Claim C9 witness: a three-family session whose stages fail with an
oracle error still totals the 90-grain pool. -/
theorem negotiation_fallback_total_witness :
    allocTotal (run_collaborative_negotiation c5Agents
      (lookupRes [("grain", 90)] "grain") (Except.error "oracle failure")).1
      = poolTotal [("grain", 90)] :=
  (negotiation_fallback_total c5Agents 90 "oracle failure" (by simp [c5Agents])).2.1
